import Mathlib

/-!
Verification of the card-rendering pipeline of `hybrid_figma_api.js`
(`SharpOnlyFigmaAutomation`): the text layout engine (`createTextSvg` with
its inner `wrapText` word-wrapper), the template table (`TEMPLATE_CONFIG`),
the single-card renderer (`processCard`) and the batch orchestrator
(`processBatch`).

Modelling conventions for the JavaScript source:
* a JS string is a `List Char` (`Str` below); `text.split(' ')` is `splitP`
  applied to the single-space predicate (it keeps empty pieces, exactly like
  JS `split`), `String.prototype.trim` is `trim` below (whitespace stripped
  from both ends);
* JS truthiness of a string is non-emptiness (`jsOr` models `a || b`);
* JS numbers are embedded as rationals; `Math.round` is `jsRound`
  (round half toward positive infinity, which is JS behaviour), `Math.floor`
  is `Int.floor`.  For the concrete constants of the source (0.06, 0.04,
  0.6, 0.8, 1.3) and pixel-sized integer widths the double computations of
  the source agree with exact rational arithmetic;
* JS object bracket access consults the prototype chain: lookup on the
  `TEMPLATE_CONFIG` literal distinguishes own entries, truthy inherited
  `Object.prototype` members (whose `nodeId` is `undefined`), and
  `undefined`;
* the network and image effects (Figma export, sharp metadata/composite,
  Cloudinary upload, the wall clock) are an oracle record `Env`: each
  fallible awaited step is a field returning `Except` with the JS error
  message, so a deterministic `Env` fixes one run of the program.
-/

namespace FigmaCards

/-- JS strings are modelled as lists of characters. -/
abbrev Str := List Char

/-- The whitespace test used by JS `trim` and the `\s` regexp class,
restricted to the ASCII whitespace characters that can appear here. -/
def isWs (c : Char) : Bool :=
  c = ' ' || c = '\t' || c = '\n' || c = '\r' || c = '\x0b' || c = '\x0c'

/-- Helper for `splitP`: returns the first piece (up to the first separator)
and the list of remaining pieces. -/
def splitPAux (p : Char → Bool) : Str → Str × List Str
  | [] => ([], [])
  | c :: cs =>
    let r := splitPAux p cs
    if p c then ([], r.1 :: r.2) else (c :: r.1, r.2)

/-- JS `String.prototype.split` on a one-character separator class:
splits at every character satisfying `p`, keeping empty pieces
(`''.split(' ')` is `['']`, `'a  b'.split(' ')` is `['a','','b']`). -/
def splitP (p : Char → Bool) (s : Str) : List Str :=
  (splitPAux p s).1 :: (splitPAux p s).2

/-- The separator predicate of `text.split(' ')` in the source. -/
def isSpace (c : Char) : Bool := c == ' '

/-- Right-trim: JS `trimEnd`. -/
def trimRight (s : Str) : Str := (s.reverse.dropWhile isWs).reverse

/-- JS `String.prototype.trim`: strip whitespace from both ends. -/
def trim (s : Str) : Str := trimRight (s.dropWhile isWs)

/-- One step of the `words.forEach` loop of `wrapText`
(`hybrid_figma_api.js` lines 98-105): the state is the pair
`(lines, currentLine)`; a word either starts a new line (pushing the trimmed
current line if it is non-empty, JS truthiness) or is appended, always with
a trailing space. -/
def wrapStep (maxChars : ℤ) : List Str × Str → Str → List Str × Str
  | (lines, currentLine), word =>
    if ((currentLine ++ word).length : ℤ) > maxChars then
      (if currentLine.isEmpty then lines else lines ++ [trim currentLine],
       word ++ [' '])
    else
      (lines, currentLine ++ (word ++ [' ']))

/-- `wrapText` of `hybrid_figma_api.js` (lines 90-109), parametrised by the
already-computed character budget `maxChars = Math.floor(maxWidth /
(fontSize * 0.6))` (an integer in every non-degenerate run; the degenerate
zero-font-size cases are handled at the call site in `createTextSvg`). -/
def wrapText (text : Str) (maxChars : ℤ) : List Str :=
  let words := splitP isSpace text
  let s := words.foldl (wrapStep maxChars) ([], [])
  if s.2.isEmpty then s.1 else s.1 ++ [trim s.2]

/-- The word sequence of a string: the maximal whitespace-free non-empty
runs, in order.  This is the notion of "word sequence" used to state
word-preservation of the wrapper. -/
def wordsWS (s : Str) : List Str :=
  (splitP isWs s).filter (fun w => !w.isEmpty)

/-- Join a list of pieces with a one-character separator; inverse of
`splitP` on a single-character class. -/
def joinSep (sep : Char) : List Str → Str
  | [] => []
  | w :: ws =>
    match ws with
    | [] => w
    | _ :: _ => w ++ sep :: joinSep sep ws

theorem splitPAux_append (p : Char → Bool) (c : Char) (hc : p c = true)
    (a b : Str) :
    splitPAux p (a ++ c :: b)
      = ((splitPAux p a).1, (splitPAux p a).2 ++ splitP p b) := by
  induction a with
  | nil => simp [splitPAux, splitP, hc]
  | cons x a ih =>
    by_cases hx : p x = true <;> simp [splitPAux, hx, ih]

theorem splitP_append (p : Char → Bool) (c : Char) (hc : p c = true)
    (a b : Str) :
    splitP p (a ++ c :: b) = splitP p a ++ splitP p b := by
  simp [splitP, splitPAux_append p c hc]

theorem wordsWS_nil : wordsWS [] = [] := rfl

theorem wordsWS_append (c : Char) (hc : isWs c = true) (a b : Str) :
    wordsWS (a ++ c :: b) = wordsWS a ++ wordsWS b := by
  simp [wordsWS, splitP_append isWs c hc]

theorem wordsWS_ws_cons (c : Char) (hc : isWs c = true) (s : Str) :
    wordsWS (c :: s) = wordsWS s := by
  simpa using wordsWS_append c hc [] s

theorem wordsWS_append_space (s : Str) :
    wordsWS (s ++ [' ']) = wordsWS s := by
  simpa [wordsWS_nil] using wordsWS_append ' ' rfl s []

theorem wordsWS_all_ws (s : Str) (h : ∀ c ∈ s, isWs c = true) :
    wordsWS s = [] := by
  induction s with
  | nil => rfl
  | cons c cs ih =>
    rw [wordsWS_ws_cons c (h c (List.mem_cons_self c cs))]
    exact ih (fun d hd => h d (List.mem_cons_of_mem c hd))

theorem wordsWS_dropWhile (s : Str) :
    wordsWS (s.dropWhile isWs) = wordsWS s := by
  induction s with
  | nil => rfl
  | cons c cs ih =>
    by_cases hc : isWs c = true
    · rw [List.dropWhile_cons_of_pos hc, ih, wordsWS_ws_cons c hc]
    · rw [List.dropWhile_cons_of_neg hc]

theorem wordsWS_trimRight (s : Str) : wordsWS (trimRight s) = wordsWS s := by
  have hsplit : s = trimRight s ++ (s.reverse.takeWhile isWs).reverse := by
    have := List.takeWhile_append_dropWhile (p := isWs) (l := s.reverse)
    calc s = s.reverse.reverse := (List.reverse_reverse s).symm
    _ = (s.reverse.takeWhile isWs ++ s.reverse.dropWhile isWs).reverse := by
        rw [this]
    _ = trimRight s ++ (s.reverse.takeWhile isWs).reverse := by
        rw [List.reverse_append]; rfl
  have hws : ∀ c ∈ (s.reverse.takeWhile isWs).reverse, isWs c = true := by
    intro c hcmem
    exact List.mem_takeWhile_imp (List.mem_reverse.mp hcmem)
  rcases hsuffix : (s.reverse.takeWhile isWs).reverse with _ | ⟨d, rest⟩
  · conv_rhs => rw [hsplit]
    rw [hsuffix, List.append_nil]
  · conv_rhs => rw [hsplit, hsuffix]
    rw [hsuffix] at hws
    rw [wordsWS_append d (hws d (List.mem_cons_self d rest))]
    rw [wordsWS_all_ws rest (fun e he => hws e (List.mem_cons_of_mem d he))]
    simp

theorem wordsWS_trim (s : Str) : wordsWS (trim s) = wordsWS s := by
  rw [trim, wordsWS_trimRight, wordsWS_dropWhile]

/-- Splitting on single spaces and re-joining with single spaces is the
identity: `text.split(' ').join(' ') == text`. -/
theorem joinSep_splitP_space (s : Str) :
    joinSep ' ' (splitP isSpace s) = s := by
  induction s with
  | nil => rfl
  | cons c cs ih =>
    by_cases hc : isSpace c = true
    · have hceq : c = ' ' := by
        have := of_decide_eq_true hc
        simpa [isSpace] using hc
      simp only [splitP, splitPAux, hc, if_pos]
      simpa [joinSep, hceq] using ih
    · simp only [splitP, splitPAux, hc, if_neg, Bool.not_eq_true]
      rcases htail : (splitPAux isSpace cs).2 with _ | ⟨w2, ws⟩
      · simp only [splitP, htail] at ih
        simpa [joinSep, htail] using congrArg (c :: ·) ih
      · simp only [splitP, htail] at ih
        simpa [joinSep, htail] using congrArg (c :: ·) ih

theorem wordsWS_joinSep (pieces : List Str) (hne : pieces ≠ []) :
    wordsWS (joinSep ' ' pieces) = (pieces.map wordsWS).flatten := by
  induction pieces with
  | nil => exact absurd rfl hne
  | cons w ws ih =>
    rcases ws with _ | ⟨w2, ws'⟩
    · simp [joinSep, wordsWS_nil]
    · have : joinSep ' ' (w :: w2 :: ws') = w ++ ' ' :: joinSep ' ' (w2 :: ws') := rfl
      rw [this, wordsWS_append ' ' rfl, ih (by simp)]
      simp

/-- The word sequence of a text is the concatenation of the word sequences
of its space-split pieces. -/
theorem wordsWS_eq_flatten_splitP (s : Str) :
    ((splitP isSpace s).map wordsWS).flatten = wordsWS s := by
  rw [← wordsWS_joinSep (splitP isSpace s) (by simp [splitP]),
    joinSep_splitP_space]

/-- Invariant of the `words.forEach` fold of `wrapText`: the words of the
accumulated lines followed by the words of the running line are exactly the
words already consumed, provided the running line is empty or ends in a
space (which the loop maintains). -/
theorem wrapStep_fold_inv (maxChars : ℤ) (ws : List Str) :
    ∀ (lines : List Str) (cur : Str),
      (cur = [] ∨ ∃ c0, cur = c0 ++ [' ']) →
      (((ws.foldl (wrapStep maxChars) (lines, cur)).1.map wordsWS).flatten
          ++ wordsWS (ws.foldl (wrapStep maxChars) (lines, cur)).2
        = (lines.map wordsWS).flatten ++ wordsWS cur
            ++ (ws.map wordsWS).flatten) := by
  induction ws with
  | nil => intro lines cur _; simp
  | cons word ws ih =>
    intro lines cur hcur
    rw [List.foldl_cons]
    by_cases hlen : ((cur ++ word).length : ℤ) > maxChars
    · by_cases hemp : cur.isEmpty = true
      · have hcur0 : cur = [] := by simpa [List.isEmpty_iff] using hemp
        have hstep : wrapStep maxChars (lines, cur) word
            = (lines, word ++ [' ']) := by
          simp only [wrapStep]; rw [if_pos hlen, if_pos hemp]
        rw [hstep, ih lines (word ++ [' ']) (Or.inr ⟨word, rfl⟩), hcur0,
          wordsWS_append_space word, wordsWS_nil]
        simp
      · have hstep : wrapStep maxChars (lines, cur) word
            = (lines ++ [trim cur], word ++ [' ']) := by
          simp only [wrapStep]; rw [if_pos hlen, if_neg hemp]
        rw [hstep, ih (lines ++ [trim cur]) (word ++ [' '])
          (Or.inr ⟨word, rfl⟩), wordsWS_append_space word]
        simp [wordsWS_trim, List.append_assoc]
    · have hstep : wrapStep maxChars (lines, cur) word
          = (lines, cur ++ (word ++ [' '])) := by
        simp only [wrapStep]; rw [if_neg hlen]
      have hcurword : wordsWS (cur ++ (word ++ [' ']))
          = wordsWS cur ++ wordsWS word := by
        rcases hcur with h0 | ⟨c0, hc0⟩
        · rw [h0, List.nil_append, wordsWS_append_space word, wordsWS_nil,
            List.nil_append]
        · subst hc0
          have h1 : (c0 ++ [' ']) ++ (word ++ [' '])
              = c0 ++ ' ' :: (word ++ [' ']) := by simp
          rw [h1, wordsWS_append ' ' rfl c0 (word ++ [' ']),
            wordsWS_append_space word, wordsWS_append_space c0]
      rw [hstep, ih lines (cur ++ (word ++ [' ']))
        (Or.inr ⟨cur ++ word, by simp⟩), hcurword]
      simp [List.append_assoc]

/-- Claim C4: for every promo string, word-wrap never drops words —
concatenating the words of all wrapped lines, in line order, reproduces
the original promo text's word sequence.  Words are the maximal
whitespace-free runs (`wordsWS`); the quantification over `maxChars`
covers every character budget the caller can compute. -/
theorem wrapText_words (text : Str) (maxChars : ℤ) :
    ((wrapText text maxChars).map wordsWS).flatten = wordsWS text := by
  have hinv := wrapStep_fold_inv maxChars (splitP isSpace text) [] []
    (Or.inl rfl)
  simp only [List.map_nil, List.flatten_nil, wordsWS_nil, List.nil_append,
    List.append_nil] at hinv
  rw [wordsWS_eq_flatten_splitP] at hinv
  unfold wrapText
  by_cases hfin :
      ((splitP isSpace text).foldl (wrapStep maxChars) ([], [])).2.isEmpty = true
  · rw [if_pos hfin]
    have h2 : ((splitP isSpace text).foldl (wrapStep maxChars) ([], [])).2
        = [] := by simpa [List.isEmpty_iff] using hfin
    rw [h2, wordsWS_nil, List.append_nil] at hinv
    exact hinv
  · rw [if_neg hfin]
    rw [← hinv]
    simp [wordsWS_trim]

/-- The empty promo: `''.split(' ')` is `['']`, the single empty word is
appended to the running line as `' '`, and the final push emits its trim:
exactly one line holding the empty string, for every character budget. -/
theorem wrapText_empty (maxChars : ℤ) : wrapText [] maxChars = [[]] := by
  unfold wrapText
  simp only [splitP, splitPAux, List.foldl_cons, List.foldl_nil, wrapStep]
  by_cases h : (((([] : Str) ++ []).length : ℤ) > maxChars)
  · rw [if_pos h]; rfl
  · rw [if_neg h]; rfl

theorem splitP_no_sep (p : Char → Bool) (s : Str)
    (h : ∀ c ∈ s, p c = false) : splitP p s = [s] := by
  induction s with
  | nil => rfl
  | cons c cs ih =>
    have hc : p c = false := h c (List.mem_cons_self c cs)
    have ihcs := ih (fun d hd => h d (List.mem_cons_of_mem c hd))
    simp only [splitP] at ihcs ⊢
    have h1 : (splitPAux p cs).1 = cs := (List.cons.injEq _ _ _ _).mp ihcs |>.1
    have h2 : (splitPAux p cs).2 = [] := (List.cons.injEq _ _ _ _).mp ihcs |>.2
    simp [splitPAux, hc, h1, h2]

theorem dropWhile_of_all_false (p : Char → Bool) (s : Str)
    (h : ∀ c ∈ s, p c = false) : s.dropWhile p = s := by
  cases s with
  | nil => rfl
  | cons c cs =>
    rw [List.dropWhile_cons_of_neg]
    rw [h c (List.mem_cons_self c cs)]
    exact Bool.false_ne_true

/-- Trimming a whitespace-free word with one trailing space recovers the
word. -/
theorem trim_word_space (s : Str) (h : ∀ c ∈ s, isWs c = false) :
    trim (s ++ [' ']) = s := by
  cases s with
  | nil => rfl
  | cons c cs =>
    have hhead : isWs c = false := h c (List.mem_cons_self c cs)
    unfold trim trimRight
    rw [List.cons_append,
      List.dropWhile_cons_of_neg (by rw [hhead]; exact Bool.false_ne_true)]
    rw [← List.cons_append, List.reverse_append, List.reverse_singleton,
      List.singleton_append, List.dropWhile_cons_of_pos (by rfl)]
    rw [dropWhile_of_all_false isWs (c :: cs).reverse
      (fun d hd => h d (List.mem_reverse.mp hd))]
    exact List.reverse_reverse (c :: cs)

/-- The single-word case: a promo that is one whitespace-free word longer
than the character budget.  The break branch fires on the only word, the
running line was empty so nothing is pushed before it, and the final push
emits the word itself, untouched. -/
theorem wrapText_single_long (text : Str) (maxChars : ℤ)
    (hword : ∀ c ∈ text, isWs c = false)
    (hlong : (text.length : ℤ) > maxChars) :
    wrapText text maxChars = [text] := by
  have hnospace : ∀ c ∈ text, isSpace c = false := by
    intro c hc
    by_cases hsp : c = ' '
    · subst hsp
      exact absurd (hword _ hc) (by simp [isWs])
    · simp [isSpace, hsp]
  unfold wrapText
  rw [splitP_no_sep isSpace text hnospace]
  simp only [List.foldl_cons, List.foldl_nil, wrapStep]
  rw [if_pos (show ((([] : Str) ++ text).length : ℤ) > maxChars by
    simpa using hlong)]
  rw [if_pos (show ([] : Str).isEmpty = true from rfl)]
  rw [if_neg (show ¬(([] : List Str), text ++ [' ']).2.isEmpty = true by
    simp)]
  rw [trim_word_space text hword]
  rfl

/-- Lines already collected are never removed by later steps of the
`words.forEach` fold. -/
theorem wrapStep_fold_mem (m : ℤ) (ws : List Str) :
    ∀ (lines : List Str) (cur x : Str), x ∈ lines →
      x ∈ (ws.foldl (wrapStep m) (lines, cur)).1 := by
  induction ws with
  | nil => intro lines cur x hx; simpa using hx
  | cons w rest ih =>
    intro lines cur x hx
    rw [List.foldl_cons]
    by_cases hlen : ((cur ++ w).length : ℤ) > m
    · by_cases hemp : cur.isEmpty = true
      · have hstep : wrapStep m (lines, cur) w = (lines, w ++ [' ']) := by
          simp only [wrapStep]; rw [if_pos hlen, if_pos hemp]
        rw [hstep]
        exact ih lines (w ++ [' ']) x hx
      · have hstep : wrapStep m (lines, cur) w
            = (lines ++ [trim cur], w ++ [' ']) := by
          simp only [wrapStep]; rw [if_pos hlen, if_neg hemp]
        rw [hstep]
        exact ih (lines ++ [trim cur]) (w ++ [' ']) x
          (List.mem_append_left _ hx)
    · have hstep : wrapStep m (lines, cur) w
          = (lines, cur ++ (w ++ [' '])) := by
        simp only [wrapStep]; rw [if_neg hlen]
      rw [hstep]
      exact ih lines (cur ++ (w ++ [' '])) x hx

/-- Lines already collected survive into the final result of `wrapText`
(the fold followed by the push of the last running line). -/
theorem wrap_final_mem (m : ℤ) (ws lines : List Str) (cur x : Str)
    (hx : x ∈ lines) :
    x ∈ (if (ws.foldl (wrapStep m) (lines, cur)).2.isEmpty
         then (ws.foldl (wrapStep m) (lines, cur)).1
         else (ws.foldl (wrapStep m) (lines, cur)).1
           ++ [trim (ws.foldl (wrapStep m) (lines, cur)).2]) := by
  have h1 := wrapStep_fold_mem m ws lines cur x hx
  by_cases h : (ws.foldl (wrapStep m) (lines, cur)).2.isEmpty = true
  · rw [if_pos h]; exact h1
  · rw [if_neg h]; exact List.mem_append_left _ h1

/-- Once an over-long whitespace-free word is the running line (with its
trailing space), it is emitted as a line of its own, intact: the next word
— if any — cannot fit after it, and the final push trims it back to the
bare word. -/
theorem wrap_cur_emits (m : ℤ) (ws : List Str) :
    ∀ (lines : List Str) (w : Str), (∀ c ∈ w, isWs c = false) →
      (w.length : ℤ) > m →
      w ∈ (if (ws.foldl (wrapStep m) (lines, w ++ [' '])).2.isEmpty
           then (ws.foldl (wrapStep m) (lines, w ++ [' '])).1
           else (ws.foldl (wrapStep m) (lines, w ++ [' '])).1
             ++ [trim (ws.foldl (wrapStep m) (lines, w ++ [' '])).2]) := by
  induction ws with
  | nil =>
    intro lines w hw hlong
    simp only [List.foldl_nil]
    rw [if_neg (by simp), trim_word_space w hw]
    exact List.mem_append_right _ (List.mem_singleton.mpr rfl)
  | cons w2 rest ih =>
    intro lines w hw hlong
    rw [List.foldl_cons]
    have hlen : ((((w ++ [' ']) ++ w2)).length : ℤ) > m := by
      have hl : ((w ++ [' ']) ++ w2).length
          = w.length + 1 + w2.length := by
        simp only [List.length_append, List.length_cons, List.length_nil]
      rw [hl]; push_cast; omega
    have hemp : ¬ ((w ++ [' ']).isEmpty = true) := by simp
    have hstep : wrapStep m (lines, w ++ [' ']) w2
        = (lines ++ [trim (w ++ [' '])], w2 ++ [' ']) := by
      simp only [wrapStep]; rw [if_pos hlen, if_neg hemp]
    rw [hstep, trim_word_space w hw]
    exact wrap_final_mem m rest (lines ++ [w]) (w2 ++ [' ']) w
      (List.mem_append_right _ (List.mem_singleton.mpr rfl))

/-- Every over-long whitespace-free word of the word list ends up as a
line of its own in the final result, from any fold state. -/
theorem wrap_process_overlong (m : ℤ) (ws : List Str) :
    ∀ (lines : List Str) (cur w : Str), w ∈ ws →
      (∀ c ∈ w, isWs c = false) → (w.length : ℤ) > m →
      w ∈ (if (ws.foldl (wrapStep m) (lines, cur)).2.isEmpty
           then (ws.foldl (wrapStep m) (lines, cur)).1
           else (ws.foldl (wrapStep m) (lines, cur)).1
             ++ [trim (ws.foldl (wrapStep m) (lines, cur)).2]) := by
  induction ws with
  | nil => intro lines cur w hmem; cases hmem
  | cons w1 rest ih =>
    intro lines cur w hmem hw hlong
    rw [List.foldl_cons]
    rcases List.mem_cons.mp hmem with heq | hrest
    · subst heq
      have hlen : ((cur ++ w).length : ℤ) > m := by
        rw [List.length_append]; push_cast; omega
      by_cases hemp : cur.isEmpty = true
      · have hstep : wrapStep m (lines, cur) w = (lines, w ++ [' ']) := by
          simp only [wrapStep]; rw [if_pos hlen, if_pos hemp]
        rw [hstep]
        exact wrap_cur_emits m rest lines w hw hlong
      · have hstep : wrapStep m (lines, cur) w
            = (lines ++ [trim cur], w ++ [' ']) := by
          simp only [wrapStep]; rw [if_pos hlen, if_neg hemp]
        rw [hstep]
        exact wrap_cur_emits m rest (lines ++ [trim cur]) w hw hlong
    · rcases hstate : wrapStep m (lines, cur) w1 with ⟨lines2, cur2⟩
      exact ih lines2 cur2 w hrest hw hlong

/-- JS `Math.round`: round half toward positive infinity. -/
def jsRound (q : ℚ) : ℤ := ⌊q + 1 / 2⌋

/-- JS `text.replace(/x/g, repl)` for a one-character pattern. -/
def replaceAll (target : Char) (repl : Str) (s : Str) : Str :=
  (s.map (fun c => if c = target then repl else [c])).flatten

/-- `escapeXml` of `createTextSvg` (lines 76-83): the five sequential
global replaces, in source order.  The apostrophe is `Char.ofNat 39`. -/
def escapeXml (text : Str) : Str :=
  replaceAll (Char.ofNat 39) ("&apos;".toList)
    (replaceAll '"' ("&quot;".toList)
      (replaceAll '>' ("&gt;".toList)
        (replaceAll '<' ("&lt;".toList)
          (replaceAll '&' ("&amp;".toList) text))))

/-- The text layout computed by `createTextSvg` (lines 68-160).  The SVG
byte serialisation is abstracted as this structured content: anchor
positions, font sizes, the wrapped promo lines with the line spacing, and
the XML-escaped text actually interpolated into the markup. -/
structure TextSvg where
  headerX : ℚ
  headerY : ℚ
  promoX : ℚ
  promoY : ℚ
  headerFontSize : ℤ
  promoFontSize : ℤ
  promoLines : List Str
  lineHeight : ℚ
  headerEscaped : Str
  promoLinesEscaped : List Str
deriving DecidableEq

/-- `createTextSvg(headerText, promoText, width, height)`.  The character
budget handed to `wrapText` is `Math.floor(maxWidth / charWidth)`; when
`charWidth` is zero the JS quotient is `±Infinity` (or `NaN` for `0/0`),
under which the length comparison never (resp. always) breaks a line —
modelled by a budget of `promoText.length` (no prefix of the text can
exceed it) resp. `-1`. -/
def createTextSvg (headerText promoText : Str) (width height : ℚ) :
    TextSvg :=
  let headerX := width / 2
  let headerY := height * (3 / 10)
  let promoX := width / 2
  let promoY := height * (6 / 10)
  let headerFontSize := jsRound (width * (6 / 100))
  let promoFontSize := jsRound (width * (4 / 100))
  let charWidth : ℚ := (promoFontSize : ℚ) * (6 / 10)
  let maxWidth : ℚ := width * (8 / 10)
  let maxChars : ℤ :=
    if charWidth = 0 then
      (if maxWidth < 0 then -1 else (promoText.length : ℤ))
    else ⌊maxWidth / charWidth⌋
  let promoLines := wrapText promoText maxChars
  let lineHeight := (promoFontSize : ℚ) * (13 / 10)
  { headerX := headerX
    headerY := headerY
    promoX := promoX
    promoY := promoY
    headerFontSize := headerFontSize
    promoFontSize := promoFontSize
    promoLines := promoLines
    lineHeight := lineHeight
    headerEscaped := escapeXml headerText
    promoLinesEscaped := promoLines.map escapeXml }

/-- A truthy object reached by `TEMPLATE_CONFIG[name]` (lines 16-23).  An
own entry carries its node id string; the only other property read from it
is `.nodeId`, which on any non-entry object (an inherited
`Object.prototype` member) is JS `undefined` — hence an `Option`. -/
structure TemplateConfig where
  nodeId : Option Str
deriving DecidableEq

/-- The own properties of the `TEMPLATE_CONFIG` object literal, as an
association list. -/
def TEMPLATE_CONFIG : List (Str × TemplateConfig) :=
  [("default".toList, ⟨some ("1:14".toList)⟩),
   ("sale".toList, ⟨some ("1:14".toList)⟩)]

def defaultTemplateName : Str := "default".toList

/-- The property names a plain object literal inherits from
`Object.prototype` (all bound to truthy function/object values), plus the
`__proto__` accessor: bracket access on `TEMPLATE_CONFIG` with one of
these names returns a truthy value even though it is not an own key. -/
def protoProps : List Str :=
  ["constructor".toList, "toString".toList, "toLocaleString".toList,
   "valueOf".toList, "hasOwnProperty".toList, "isPrototypeOf".toList,
   "propertyIsEnumerable".toList, "__proto__".toList,
   "__defineGetter__".toList, "__defineSetter__".toList,
   "__lookupGetter__".toList, "__lookupSetter__".toList]

/-- JS `TEMPLATE_CONFIG[name]`: an own property shadows the prototype
chain; otherwise an `Object.prototype` member is returned as a truthy
object with no `nodeId` field; any other name is `undefined` (`none`). -/
def lookupTemplate (name : Str) : Option TemplateConfig :=
  match (TEMPLATE_CONFIG.find? (fun p => p.1 == name)).map (fun p => p.2) with
  | some cfg => some cfg
  | none => if name ∈ protoProps then some ⟨none⟩ else none

/-- `TEMPLATE_CONFIG[templateType] || TEMPLATE_CONFIG.default`
(line 246): a found entry is a truthy object, otherwise the default
entry. -/
def resolveTemplate (name : Str) : Option TemplateConfig :=
  (lookupTemplate name).orElse (fun _ => lookupTemplate defaultTemplateName)

/-- JS `a || b` on possibly-undefined strings: an absent or empty (falsy)
left operand falls through to the right one. -/
def jsOr (a b : Option Str) : Option Str :=
  match a with
  | some s => if s.isEmpty then b else some s
  | none => b

/-- An input record of `processBatch`: every recognised field may be
absent. -/
structure Card where
  header : Option Str
  Header : Option Str
  promo : Option Str
  PromoText : Option Str
  promo_text : Option Str
  template : Option Str
deriving DecidableEq

/-- The record returned by `processCard` (lines 275-292): `imageUrl` is
present exactly on the success shape and `error` exactly on the failure
shape; `header`/`promo` are whatever strings (possibly JS `undefined`)
were passed in. -/
structure CardResult where
  success : Bool
  header : Option Str
  promo : Option Str
  template : Str
  imageUrl : Option Str
  error : Option Str
  timestamp : Str
deriving DecidableEq

/-- Raster buffers are opaque byte strings. -/
abbrev Buffer := List Nat

/-- The oracle for one run: outcomes of every awaited effect of the
pipeline.  `exportFigmaComponent` is the whole Figma-export step
(lines 33-65, it rethrows its internal failures; its argument is
`config.nodeId`, which is JS `undefined` when resolution produced an
inherited prototype object, so the oracle decides that remote outcome
too), `metadata` and
`composite` are the two fallible sharp steps of `addTextOverlay`
(lines 168 and 175-188), `uploadToCloudinary` the upload (lines 198-239),
`now` is `Date.now()` and `timestampIso` is `new Date().toISOString()`. -/
structure Env where
  exportFigmaComponent : Option Str → Except Str Buffer
  metadata : Buffer → Except Str (Nat × Nat)
  composite : Buffer → TextSvg → Except Str Buffer
  uploadToCloudinary : Buffer → Str → Except Str Str
  now : Nat
  timestampIso : Str

/-- The message of the `TypeError` raised by calling a string method on
`undefined` (exact wording immaterial to every property below). -/
def jsTypeError : Str := "TypeError: undefined has no properties".toList

/-- `headerText.replace(/\s+/g, '_')`: each maximal whitespace run becomes
one underscore.  The flag records whether the previous character was
whitespace. -/
def squashWsAux (inRun : Bool) : Str → Str
  | [] => []
  | c :: cs =>
    if isWs c then
      (if inRun then [] else ['_']) ++ squashWsAux true cs
    else c :: squashWsAux false cs

/-- The Cloudinary filename of line 272:
`card_<Date.now()>_<header with whitespace runs replaced>.substring(0,20)`. -/
def mkFilename (now : Nat) (headerText : Str) : Str :=
  "card_".toList ++ (toString now).toList ++ "_".toList
    ++ (squashWsAux false headerText).take 20

/-- `addTextOverlay` (lines 163-195): read the real dimensions, build the
overlay with them, composite.  A JS-`undefined` header or promo makes the
pure layout code throw a `TypeError` (`split`/`replace` on `undefined`),
which the enclosing try/catch rethrows. -/
def addTextOverlay (env : Env) (imageBuffer : Buffer)
    (headerText promoText : Option Str) : Except Str Buffer :=
  match env.metadata imageBuffer with
  | .error e => .error e
  | .ok (w, h) =>
    match headerText, promoText with
    | some hd, some pr =>
      match env.composite imageBuffer (createTextSvg hd pr (w : ℚ) (h : ℚ)) with
      | .error e => .error e
      | .ok processed => .ok processed
    | _, _ => .error jsTypeError

/-- The try block of `processCard` (lines 243-282): resolve the template,
export the base image, overlay the text, build the filename (a `replace`
call on the header, which throws on JS `undefined`), upload; the value is
the uploaded image URL, or the first failure. -/
def processCardAttempt (env : Env) (headerText promoText : Option Str)
    (templateType : Str) : Except Str Str :=
  match resolveTemplate templateType with
  | none => .error jsTypeError
  | some config =>
    match env.exportFigmaComponent config.nodeId with
    | .error e => .error e
    | .ok baseImageBuffer =>
      match addTextOverlay env baseImageBuffer headerText promoText with
      | .error e => .error e
      | .ok processedImage =>
        match headerText with
        | none => .error jsTypeError
        | some hd =>
          match env.uploadToCloudinary processedImage
              (mkFilename env.now hd) with
          | .error e => .error e
          | .ok url => .ok url

/-- `processCard` (lines 242-294): run the try block; its value yields the
success record, any caught failure yields the failure record carrying the
same `header`/`promo`/`template`. -/
def processCard (env : Env) (headerText promoText : Option Str)
    (templateType : Str) : CardResult :=
  match processCardAttempt env headerText promoText templateType with
  | .ok imageUrl =>
    { success := true
      header := headerText
      promo := promoText
      template := templateType
      imageUrl := some imageUrl
      error := none
      timestamp := env.timestampIso }
  | .error e =>
    { success := false
      header := headerText
      promo := promoText
      template := templateType
      imageUrl := none
      error := some e
      timestamp := env.timestampIso }

/-- `card.header || card.Header` (line 306). -/
def effectiveHeader (card : Card) : Option Str := jsOr card.header card.Header

/-- `card.promo || card.PromoText || card.promo_text` (line 307),
left-associated as in JS. -/
def effectivePromo (card : Card) : Option Str :=
  jsOr (jsOr card.promo card.PromoText) card.promo_text

/-- `card.template || 'default'` (line 308). -/
def effectiveTemplate (t : Option Str) : Str :=
  match t with
  | some s => if s.isEmpty then defaultTemplateName else s
  | none => defaultTemplateName

/-- The `processCard` call of one `processBatch` iteration
(lines 305-309). -/
def processCardOf (env : Env) (card : Card) : CardResult :=
  processCard env (effectiveHeader card) (effectivePromo card)
    (effectiveTemplate card.template)

/-- The results array built by the `processBatch` loop (lines 297-328):
one result is pushed per input record, in order. -/
def processBatch (env : Env) : List Card → List CardResult
  | [] => []
  | card :: rest => processCardOf env card :: processBatch env rest

/-- An observable action of the `processBatch` loop: rendering one record,
or sleeping. -/
inductive Ev where
  | card (r : CardResult)
  | delayMs (ms : Nat)
deriving DecidableEq

def isDelay : Ev → Bool
  | Ev.delayMs _ => true
  | Ev.card _ => false

/-- The ordered action trace of the `processBatch` loop: the delay of
lines 313-316 runs exactly when `i < cards.length - 1`, that is, whenever
the record just processed is not the last one. -/
def processBatchEvents (env : Env) : List Card → List Ev
  | [] => []
  | card :: rest =>
    match rest with
    | [] => [Ev.card (processCardOf env card)]
    | _ :: _ =>
      Ev.card (processCardOf env card) :: Ev.delayMs 1000
        :: processBatchEvents env rest

/-- Whether an `Except` is on its error branch. -/
def exceptFailed {ε α : Type} : Except ε α → Bool
  | .error _ => true
  | .ok _ => false

theorem processCard_header (env : Env) (h p : Option Str) (t : Str) :
    (processCard env h p t).header = h := by
  cases ha : processCardAttempt env h p t <;> simp [processCard, ha]

theorem processCard_promo (env : Env) (h p : Option Str) (t : Str) :
    (processCard env h p t).promo = p := by
  cases ha : processCardAttempt env h p t <;> simp [processCard, ha]

theorem processCard_template (env : Env) (h p : Option Str) (t : Str) :
    (processCard env h p t).template = t := by
  cases ha : processCardAttempt env h p t <;> simp [processCard, ha]

theorem processCard_timestamp (env : Env) (h p : Option Str) (t : Str) :
    (processCard env h p t).timestamp = env.timestampIso := by
  cases ha : processCardAttempt env h p t <;> simp [processCard, ha]

/-- `imageUrl` is present exactly on the success shape. -/
theorem processCard_imageUrl (env : Env) (h p : Option Str) (t : Str) :
    (processCard env h p t).imageUrl.isSome = (processCard env h p t).success := by
  cases ha : processCardAttempt env h p t <;> simp [processCard, ha]

/-- `error` is present exactly on the failure shape. -/
theorem processCard_error (env : Env) (h p : Option Str) (t : Str) :
    (processCard env h p t).error.isSome
      = !(processCard env h p t).success := by
  cases ha : processCardAttempt env h p t <;> simp [processCard, ha]

/-- When every upload attempt of the environment fails, the try block of
`processCard` cannot produce a value. -/
theorem processCardAttempt_upload_fail (env : Env) (h p : Option Str)
    (t : Str)
    (hu : ∀ img name, exceptFailed (env.uploadToCloudinary img name) = true) :
    exceptFailed (processCardAttempt env h p t) = true := by
  unfold processCardAttempt
  cases hres : resolveTemplate t with
  | none => rfl
  | some config =>
    dsimp only
    cases hexp : env.exportFigmaComponent config.nodeId with
    | error e => rfl
    | ok base =>
      dsimp only
      cases hov : addTextOverlay env base h p with
      | error e => rfl
      | ok processed =>
        dsimp only
        cases h with
        | none => rfl
        | some hd =>
          dsimp only
          cases hup : env.uploadToCloudinary processed
              (mkFilename env.now hd) with
          | error e => rfl
          | ok url =>
            have hfail := hu processed (mkFilename env.now hd)
            rw [hup] at hfail
            exact absurd hfail (by simp [exceptFailed])

theorem processBatch_length (env : Env) (cards : List Card) :
    (processBatch env cards).length = cards.length := by
  induction cards with
  | nil => rfl
  | cons c rest ih => simp [processBatch, ih]

theorem processBatch_map_header (env : Env) (cards : List Card) :
    (processBatch env cards).map CardResult.header
      = cards.map effectiveHeader := by
  induction cards with
  | nil => rfl
  | cons c rest ih =>
    simp only [processBatch, List.map_cons, ih, processCardOf,
      processCard_header]

theorem processBatchEvents_intersperse (env : Env) (cards : List Card) :
    processBatchEvents env cards
      = List.intersperse (Ev.delayMs 1000)
          ((processBatch env cards).map Ev.card) := by
  induction cards with
  | nil => rfl
  | cons c rest ih =>
    cases rest with
    | nil => rfl
    | cons c2 r =>
      simp only [processBatchEvents, processBatch, List.map_cons] at ih ⊢
      rw [List.intersperse_cons_cons, ← ih]

theorem countP_isDelay_intersperse (l : List CardResult) :
    ((List.intersperse (Ev.delayMs 1000) (l.map Ev.card)).countP isDelay)
      = l.length - 1 := by
  induction l with
  | nil => rfl
  | cons a rest ih =>
    cases rest with
    | nil => rfl
    | cons b r =>
      simp only [List.map_cons, List.intersperse_cons_cons,
        List.countP_cons, List.length_cons] at ih ⊢
      simp [isDelay] at ih ⊢
      omega

/-- A healthy run: every remote step answers. -/
def sampleEnv : Env where
  exportFigmaComponent := fun _ => .ok [137, 80, 78, 71]
  metadata := fun _ => .ok (1000, 500)
  composite := fun _ _ => .ok [137, 80, 78, 71, 0]
  uploadToCloudinary := fun _ name =>
    .ok ("https://res.cloudinary.test/".toList ++ name)
  now := 7
  timestampIso := "2023-11-14T22:13:20.000Z".toList

/-- A run whose upload sink always fails. -/
def failUploadEnv : Env :=
  { sampleEnv with
    uploadToCloudinary := fun _ _ =>
      .error ("Invalid CLOUDINARY_URL format".toList) }

/-- Claim C1: for every environment and every input sequence,
`processBatch` returns one result per record, index-aligned: the output
length equals the input length and, slot by slot, the result carries the
(synonym-resolved) header of the input record, even when records fail
(the environment is arbitrary, so any subset of records may fail). -/
theorem processBatch_order_identity (env : Env) (cards : List Card) :
    (processBatch env cards).length = cards.length ∧
    (processBatch env cards).map CardResult.header
      = cards.map effectiveHeader :=
  ⟨processBatch_length env cards, processBatch_map_header env cards⟩

/-- Claim C2: `processCard` is a total function (every failure is caught),
its result carries the input `header`/`promo`/`template` unchanged in both
the success and the failure branch, `imageUrl` is present exactly when
`success` is true and `error` exactly when it is false; in particular when
the upload sink fails the result is the failure shape with no
`imageUrl`. -/
theorem processCard_contract (env : Env) (h p : Option Str) (t : Str) :
    (processCard env h p t).header = h ∧
    (processCard env h p t).promo = p ∧
    (processCard env h p t).template = t ∧
    (processCard env h p t).imageUrl.isSome = (processCard env h p t).success ∧
    (processCard env h p t).error.isSome = !(processCard env h p t).success ∧
    ((∀ img name, exceptFailed (env.uploadToCloudinary img name) = true) →
      (processCard env h p t).success = false ∧
      (processCard env h p t).imageUrl = none) := by
  refine ⟨processCard_header env h p t, processCard_promo env h p t,
    processCard_template env h p t, processCard_imageUrl env h p t,
    processCard_error env h p t, fun hu => ?_⟩
  have hfail := processCardAttempt_upload_fail env h p t hu
  cases ha : processCardAttempt env h p t with
  | ok url =>
    rw [ha] at hfail
    exact absurd hfail (by simp [exceptFailed])
  | error e => simp [processCard, ha]

theorem processCard_contract_w :
    (processCard failUploadEnv (some ("Summer Sale".toList))
        (some ("50% off all items!".toList)) defaultTemplateName).success
      = false ∧
    (processCard failUploadEnv (some ("Summer Sale".toList))
        (some ("50% off all items!".toList)) defaultTemplateName).imageUrl
      = none ∧
    (processCard failUploadEnv (some ("Summer Sale".toList))
        (some ("50% off all items!".toList)) defaultTemplateName).header
      = some ("Summer Sale".toList) :=
  ⟨((processCard_contract failUploadEnv _ _ _).2.2.2.2.2 (fun _ _ => rfl)).1,
   ((processCard_contract failUploadEnv _ _ _).2.2.2.2.2 (fun _ _ => rfl)).2,
   (processCard_contract failUploadEnv _ _ _).1⟩

/-- Claim C3, counterexample: on the empty promo the word-wrap step of the
layout produces one line, not zero (`''.split(' ')` is `['']` and the
single empty word still drives one push). -/
theorem createTextSvg_empty_promo_cex :
    (createTextSvg ("Summer Sale".toList) [] 1000 500).promoLines.length
      ≠ 0 := by
  have h : (createTextSvg ("Summer Sale".toList) [] 1000 500).promoLines
      = [[]] := wrapText_empty _
  rw [h]
  decide

/-- Claim C3 (amended): for every header and canvas size, the empty promo
makes the word-wrap step produce exactly one line, which is the empty
string, and it does not fail. -/
theorem createTextSvg_empty_promo (header : Str) (w h : ℚ) :
    (createTextSvg header [] w h).promoLines = [[]] :=
  wrapText_empty _

/-- Claim C5: for every canvas width the computed header font size is
`Math.round` of 6 percent of the width and the promo font size is
`Math.round` of 4 percent of the width (`round` is round-half-up, as in
JS). -/
theorem createTextSvg_font_sizes (header promo : Str) (w h : ℚ) :
    (createTextSvg header promo w h).headerFontSize
      = round ((6 / 100 : ℚ) * w) ∧
    (createTextSvg header promo w h).promoFontSize
      = round ((4 / 100 : ℚ) * w) := by
  constructor <;> simp [createTextSvg, jsRound, round_eq, mul_comm]

/-- Claim C7: the action trace of the batch loop is the per-record events
interspersed with single 1000 ms delays — a delay exactly between
consecutive records and never after the last — so the delay count is
`cards.length - 1`, zero for empty and singleton batches. -/
theorem processBatch_delays (env : Env) (cards : List Card) :
    processBatchEvents env cards
      = List.intersperse (Ev.delayMs 1000)
          ((processBatch env cards).map Ev.card) ∧
    (processBatchEvents env cards).countP isDelay = cards.length - 1 := by
  refine ⟨processBatchEvents_intersperse env cards, ?_⟩
  rw [processBatchEvents_intersperse, countP_isDelay_intersperse,
    processBatch_length]

/-- Claim C8, counterexample: `'constructor'` is not an own key of
`TEMPLATE_CONFIG`, yet line 246 does not fall back to the default entry —
the truthy inherited `Object.prototype.constructor` is kept, an object
whose `nodeId` is `undefined`, so an unknown name does not always yield
the default template configuration. -/
theorem resolveTemplate_proto_cex :
    (TEMPLATE_CONFIG.find? (fun p => p.1 == ("constructor".toList)))
      = none ∧
    resolveTemplate ("constructor".toList) = some ⟨none⟩ ∧
    ¬ resolveTemplate ("constructor".toList)
        = lookupTemplate defaultTemplateName := by
  refine ⟨rfl, rfl, ?_⟩
  decide

/-- Claim C8 (amended): resolution never yields JS `undefined` (the
`"default"` entry exists in `TEMPLATE_CONFIG`); an unknown name that is
not an `Object.prototype` property name falls back to the default entry,
as does an absent name (normalised by `card.template || 'default'`); a
prototype-chain name instead yields the truthy inherited object, whose
`nodeId` is `undefined`. -/
theorem resolveTemplate_total_default (name : Str) :
    (resolveTemplate name).isSome = true ∧
    ((TEMPLATE_CONFIG.find? (fun p => p.1 == name)) = none →
      ¬ name ∈ protoProps →
      resolveTemplate name = lookupTemplate defaultTemplateName) ∧
    (name ∈ protoProps → resolveTemplate name = some ⟨none⟩) ∧
    resolveTemplate (effectiveTemplate none)
      = lookupTemplate defaultTemplateName ∧
    lookupTemplate defaultTemplateName = some ⟨some ("1:14".toList)⟩ := by
  refine ⟨?_, ?_, ?_, rfl, rfl⟩
  · unfold resolveTemplate
    cases hl : lookupTemplate name with
    | some cfg => rfl
    | none => rfl
  · intro hfind hproto
    have hl : lookupTemplate name = none := by
      unfold lookupTemplate
      rw [hfind]
      simp [hproto]
    unfold resolveTemplate
    rw [hl]
    rfl
  · intro hproto
    fin_cases hproto <;> decide

theorem resolveTemplate_total_default_w :
    (TEMPLATE_CONFIG.find? (fun p => p.1 == ("holiday".toList))) = none ∧
    ¬ ("holiday".toList ∈ protoProps) ∧
    resolveTemplate ("holiday".toList)
      = lookupTemplate defaultTemplateName ∧
    ("constructor".toList ∈ protoProps) ∧
    resolveTemplate ("constructor".toList) = some ⟨none⟩ :=
  ⟨rfl, by decide, (resolveTemplate_total_default _).2.1 rfl (by decide),
   by decide, (resolveTemplate_total_default _).2.2.1 (by decide)⟩

/-- Claim C9: the text layout computation is deterministic — two calls on
equal header text, promo text, canvas width and canvas height produce
identical layouts (positions, font sizes, wrapped lines and escaped
overlay content are all fields of the compared records). -/
theorem createTextSvg_deterministic (h1 p1 : Str) (w1 t1 : ℚ)
    (h2 p2 : Str) (w2 t2 : ℚ)
    (hh : h1 = h2) (hp : p1 = p2) (hw : w1 = w2) (ht : t1 = t2) :
    createTextSvg h1 p1 w1 t1 = createTextSvg h2 p2 w2 t2 := by
  subst hh hp hw ht
  rfl

theorem createTextSvg_deterministic_w :
    ("Summer Sale".toList : Str) = "Summer Sale".toList ∧
    createTextSvg ("Summer Sale".toList) ("50% off".toList) 1000 500
      = createTextSvg ("Summer Sale".toList) ("50% off".toList) 1000 500 :=
  ⟨rfl, createTextSvg_deterministic _ _ _ _ _ _ _ _ rfl rfl rfl rfl⟩

/-- Claim C6, counterexample: the general clause "any over-long word
occupies a line by itself intact" fails for words with adjacent or
embedded non-space whitespace.  In `"abc\tdef"` with budget 2 the words
`abc` and `def` are each over-long yet share the single output line; in
`"abc\t def"` with budget 3 the over-long space-delimited piece `abc\t` is
emitted trimmed to `abc`, not intact. -/
theorem wrapText_overlong_cex :
    wordsWS ("abc\tdef".toList) = ["abc".toList, "def".toList] ∧
    (("abc".toList : Str).length : ℤ) > 2 ∧
    (("def".toList : Str).length : ℤ) > 2 ∧
    wrapText ("abc\tdef".toList) 2 = ["abc\tdef".toList] ∧
    ¬ ("abc".toList ∈ wrapText ("abc\tdef".toList) 2) ∧
    ("abc\t".toList ∈ splitP isSpace ("abc\t def".toList)) ∧
    (("abc\t".toList : Str).length : ℤ) > 3 ∧
    wrapText ("abc\t def".toList) 3 = ["abc".toList, "def".toList] ∧
    ¬ ("abc\t".toList ∈ wrapText ("abc\t def".toList) 3) := by
  decide

/-- Claim C6 (amended): a promo consisting of a single whitespace-free
word longer than the wrap width is kept on its own line unsplit (the
output is exactly that word); more generally, any over-long space-split
word containing no whitespace occupies a line by itself, intact, in the
output. -/
theorem wrapText_overlong_own_line (text : Str) (maxChars : ℤ) :
    (∀ w ∈ splitP isSpace text, (∀ c ∈ w, isWs c = false) →
      (w.length : ℤ) > maxChars → w ∈ wrapText text maxChars) ∧
    ((∀ c ∈ text, isWs c = false) → (text.length : ℤ) > maxChars →
      wrapText text maxChars = [text]) := by
  constructor
  · intro w hmem hw hlong
    exact wrap_process_overlong maxChars (splitP isSpace text) [] [] w
      hmem hw hlong
  · exact wrapText_single_long text maxChars

theorem wrapText_overlong_own_line_w :
    ("Hippopotamus".toList ∈ splitP isSpace ("a Hippopotamus b".toList)) ∧
    (∀ c ∈ ("Hippopotamus".toList : Str), isWs c = false) ∧
    (("Hippopotamus".toList : Str).length : ℤ) > 5 ∧
    "Hippopotamus".toList ∈ wrapText ("a Hippopotamus b".toList) 5 ∧
    wrapText ("Hippopotamus".toList) 5 = ["Hippopotamus".toList] :=
  ⟨by decide, by decide, by decide,
   (wrapText_overlong_own_line ("a Hippopotamus b".toList) 5).1 _
     (by decide) (by decide) (by decide),
   (wrapText_overlong_own_line ("Hippopotamus".toList) 5).2
     (by decide) (by decide)⟩

/-- Claim C10: field-synonym selection is by JS truthiness, not key
presence: a record with an empty-string `header` and a present `Header`
hands the `Header` value to the renderer (the result's `header` field is
that value), and an empty-string `promo` falls through to `PromoText` and
then to `promo_text`. -/
theorem synonym_truthiness (env : Env) (card : Card) (hd : Str)
    (h1 : card.header = some []) (h2 : card.Header = some hd) :
    effectiveHeader card = some hd ∧
    (processCardOf env card).header = some hd ∧
    (card.promo = some [] →
      effectivePromo card = jsOr card.PromoText card.promo_text) ∧
    (card.promo = some [] → card.PromoText = some [] →
      effectivePromo card = card.promo_text) := by
  have hh : effectiveHeader card = some hd := by
    simp [effectiveHeader, jsOr, h1, h2]
  refine ⟨hh, ?_, ?_, ?_⟩
  · rw [processCardOf, processCard_header, hh]
  · intro hp
    simp [effectivePromo, jsOr, hp]
  · intro hp hpt
    simp [effectivePromo, jsOr, hp, hpt]

/-- The record used to witness the truthiness fallback. -/
def sampleCard : Card where
  header := some []
  Header := some ("New Arrivals".toList)
  promo := some []
  PromoText := some []
  promo_text := some ("Latest collection".toList)
  template := none

theorem synonym_truthiness_w :
    sampleCard.header = some [] ∧
    sampleCard.Header = some ("New Arrivals".toList) ∧
    effectiveHeader sampleCard = some ("New Arrivals".toList) ∧
    (processCardOf sampleEnv sampleCard).header
      = some ("New Arrivals".toList) ∧
    effectivePromo sampleCard = sampleCard.promo_text :=
  ⟨rfl, rfl, (synonym_truthiness sampleEnv sampleCard _ rfl rfl).1,
   (synonym_truthiness sampleEnv sampleCard _ rfl rfl).2.1,
   (synonym_truthiness sampleEnv sampleCard _ rfl rfl).2.2.2 rfl rfl⟩

end FigmaCards
